import Mathlib

/-!
Verification of the notebook test-runner harness of the landlab/tutorials
repository (`run_notebook.py`, `find_notebooks.py`, `.ci/run_tutorials.py`).

The Python functions are shallowly embedded as executable Lean definitions:
strings are `String`, paths are `String`, subprocess behaviour is abstracted
by an oracle `String → Option PyExc` giving, per notebook, whether running it
raises `subprocess.CalledProcessError`, raises some other exception, or
succeeds.  The working directory is explicit state.
-/

set_option autoImplicit false

/-- Python `str.startswith`: prefix test on the character list. -/
def py_startswith (s pre : String) : Bool :=
  pre.data.isPrefixOf s.data

/-- Python `str.endswith`: suffix test on the character list. -/
def py_endswith (s suf : String) : Bool :=
  suf.data.isSuffixOf s.data

/-!
## `fnmatch.fnmatch`

`match_by_pattern` (run_notebook.py) delegates to the standard-library
`fnmatch.fnmatch`.  We embed its POSIX semantics (where `os.path.normcase` is
the identity), following `fnmatch.translate`: `*` matches any sequence, `?`
any single character, `[...]` a character class (leading `!` negates; a `]`
immediately after `[` or `[!` is literal; an unterminated `[` is a literal
`[`), everything else is literal.  The matcher is written with explicit fuel
so that it is structurally recursive and kernel-evaluable; the fuel
`pattern.length + string.length + 1` is enough because every recursive call
decreases the sum of the two lengths.
-/

/-- One item of a `[...]` character class: a literal character or a range. -/
inductive ClassItem where
  | single (c : Char)
  | range (lo hi : Char)
  deriving DecidableEq, Repr

/-- Parse the body of a character class into items; `a-b` between ordinary
characters is a range, a `-` at either end is literal (regex class rules,
which is what `fnmatch.translate` produces). -/
def parseClassItems : List Char → List ClassItem
  | a :: '-' :: b :: rest => ClassItem.range a b :: parseClassItems rest
  | a :: rest => ClassItem.single a :: parseClassItems rest
  | [] => []

/-- Scan after a `[` the way `fnmatch.translate` does: skip a leading `!`,
then a leading `]` (both taken literally), then look for the closing `]`.
Returns `none` when there is none (the `[` is then a literal character),
otherwise the negation flag, the parsed items and the rest of the pattern. -/
def classEnd (ps : List Char) : Option (Bool × List ClassItem × List Char) :=
  let j0 := if ps.head? == some '!' then 1 else 0
  let j1 := if ps.get? j0 == some ']' then j0 + 1 else j0
  match (ps.drop j1).findIdx? (· == ']') with
  | none => none
  | some k =>
    let j := j1 + k
    let stuff := ps.take j
    let rest := ps.drop (j + 1)
    if stuff.head? == some '!' then
      some (true, parseClassItems (stuff.drop 1), rest)
    else
      some (false, parseClassItems stuff, rest)

/-- Does character `c` belong to the (un-negated) class given by `items`? -/
def matchClassItems (items : List ClassItem) (c : Char) : Bool :=
  items.any fun it =>
    match it with
    | ClassItem.single a => a == c
    | ClassItem.range lo hi => decide (lo ≤ c) && decide (c ≤ hi)

/-- Class membership with the negation flag applied. -/
def matchClass (neg : Bool) (items : List ClassItem) (c : Char) : Bool :=
  if neg then !(matchClassItems items c) else matchClassItems items c

/-- Fuelled glob matcher: `fnmatchFuel fuel pattern string`. -/
def fnmatchFuel : Nat → List Char → List Char → Bool
  | 0, _, _ => false
  | _ + 1, [], s => s.isEmpty
  | fuel + 1, c :: ps, s =>
    if c = '*' then
      fnmatchFuel fuel ps s ||
        (match s with
         | [] => false
         | _ :: s2 => fnmatchFuel fuel (c :: ps) s2)
    else if c = '?' then
      (match s with
       | [] => false
       | _ :: s2 => fnmatchFuel fuel ps s2)
    else if c = '[' then
      (match classEnd ps with
       | some (neg, items, rest) =>
         (match s with
          | [] => false
          | d :: s2 => matchClass neg items d && fnmatchFuel fuel rest s2)
       | none =>
         (match s with
          | [] => false
          | d :: s2 => (d == '[') && fnmatchFuel fuel ps s2))
    else
      (match s with
       | [] => false
       | d :: s2 => (d == c) && fnmatchFuel fuel ps s2)

/-- `fnmatch.fnmatch(name, pattern)` on POSIX. -/
def fnmatch (name pattern : String) : Bool :=
  fnmatchFuel (pattern.data.length + name.data.length + 1) pattern.data name.data

/-!
## `match_by_pattern` (run_notebook.py)
-/

/-- Inner helper of `match_by_pattern`: the loop
`for pattern in patterns: if fnmatch(string, pattern): return True` /
`return False`. -/
def string_matches_one_of (s : String) : List String → Bool
  | [] => false
  | p :: ps => if fnmatch s p then true else string_matches_one_of s ps

/-- `match_by_pattern(strings, patterns)`: collect, in order, the strings
that match at least one of the glob patterns. -/
def match_by_pattern : List String → List String → List String
  | [], _ => []
  | s :: ss, patterns =>
    if string_matches_one_of s patterns then s :: match_by_pattern ss patterns
    else match_by_pattern ss patterns

/-!
## Run coordinator (`run_command`, `check_notebook`, reporter, `main`)

The outcome of a single `run_notebook(path)` call is abstracted by an oracle
`beh : String → Option PyExc`: `none` means the call returns normally,
`some .calledProcessError` means it raises `subprocess.CalledProcessError`
(conversion or interpreter subprocess exited non-zero), `some .other` means
it raises any other exception.
-/

/-- The two kinds of exception the harness distinguishes:
`subprocess.CalledProcessError` versus everything else. -/
inductive PyExc where
  | calledProcessError
  | other
  deriving DecidableEq, Repr

/-- `check_notebook(notebook, dry_run)`: runs
`dry_run or run_notebook(notebook)` under
`try/except subprocess.CalledProcessError` — `True` on normal return,
`False` when a `CalledProcessError` is caught, any other exception
propagates. -/
def check_notebook (beh : String → Option PyExc) (notebook : String)
    (dry_run : Bool) : Except PyExc Bool :=
  if dry_run then Except.ok true
  else
    match beh notebook with
    | none => Except.ok true
    | some PyExc.calledProcessError => Except.ok false
    | some PyExc.other => Except.error PyExc.other

/-- Observable outcome of `run_command`'s loop.  A summary entry is a
`(notebook, result)` pair with the Python encoding `None`/`True`/`False`
rendered as `none`/`some true`/`some false`.  The second list records the
notebooks for which `run_notebook` was invoked (i.e. for which conversion /
interpreter subprocesses were spawned).  `aborted` carries the entries
recorded before an uncaught exception `e` escaped the loop. -/
inductive RunOutcome where
  | finished (summary : List (String × Option Bool)) (executed : List String)
  | aborted (summary : List (String × Option Bool)) (executed : List String)
      (e : PyExc)
  deriving DecidableEq, Repr

/-- Prepend one processed item (its summary entry and the notebooks executed
for it) to an outcome. -/
def RunOutcome.withEntry : RunOutcome → String × Option Bool → List String →
    RunOutcome
  | RunOutcome.finished s ex, p, inv => RunOutcome.finished (p :: s) (inv ++ ex)
  | RunOutcome.aborted s ex e, p, inv =>
      RunOutcome.aborted (p :: s) (inv ++ ex) e

/-- The recorded summary of an outcome. -/
def RunOutcome.summary : RunOutcome → List (String × Option Bool)
  | RunOutcome.finished s _ => s
  | RunOutcome.aborted s _ _ => s

/-- The notebooks for which `run_notebook` was invoked. -/
def RunOutcome.executed : RunOutcome → List String
  | RunOutcome.finished _ ex => ex
  | RunOutcome.aborted _ ex _ => ex

/-- The main loop of `run_command`: for each notebook, record
`(notebook, None)` if it is in the excluded list, otherwise record
`(notebook, check_notebook(notebook, dry_run))`; an exception escaping
`check_notebook` aborts the loop. -/
def runCommandLoop (beh : String → Option PyExc) (excluded : List String)
    (dry_run : Bool) : List String → RunOutcome
  | [] => RunOutcome.finished [] []
  | nb :: rest =>
    if nb ∈ excluded then
      (runCommandLoop beh excluded dry_run rest).withEntry (nb, none) []
    else
      let invoked : List String := if dry_run then [] else [nb]
      match check_notebook beh nb dry_run with
      | Except.ok b =>
          (runCommandLoop beh excluded dry_run rest).withEntry
            (nb, some b) invoked
      | Except.error e => RunOutcome.aborted [] invoked e

/-- `run_command` up to its observable outcome: the excluded list is
`match_by_pattern(notebooks, exclude)` and the loop processes the requested
notebooks in order. -/
def run_command_outcome (beh : String → Option PyExc)
    (notebooks exclude : List String) (dry_run : Bool) : RunOutcome :=
  runCommandLoop beh (match_by_pattern notebooks exclude) dry_run notebooks

/-- `print_success_or_failure(summary)`: the printed line and the returned
value `len(failures)`. -/
def print_success_or_failure (summary : List (String × Option Bool)) :
    String × Nat :=
  let failures := (summary.filter fun p => p.2 == some false).map Prod.fst
  let passes := (summary.filter fun p => p.2 == some true).map Prod.fst
  if !failures.isEmpty then
    ("FAILED (failures=" ++ toString failures.length ++ ")", failures.length)
  else
    ("OK Ran " ++ toString passes.length ++ " tests", failures.length)

/-- `run_command(args)`: returns `print_success_or_failure(summary)` when the
loop finishes, and lets any other exception propagate. -/
def run_command (beh : String → Option PyExc)
    (notebooks exclude : List String) (dry_run : Bool) : Except PyExc Nat :=
  match run_command_outcome beh notebooks exclude dry_run with
  | RunOutcome.finished summary _ =>
      Except.ok (print_success_or_failure summary).2
  | RunOutcome.aborted _ _ e => Except.error e

/-- `main()` of run_notebook.py: it calls `args.func(args)` but does not
return its value, so it falls off the end and returns `None`; the
`sys.exit(main())` at module level therefore receives `None` whenever
`run_command` returns, whatever the failure count was. -/
def main_model (beh : String → Option PyExc)
    (notebooks exclude : List String) (dry_run : Bool) :
    Except PyExc (Option Nat) :=
  match run_command beh notebooks exclude dry_run with
  | Except.ok _ => Except.ok none
  | Except.error e => Except.error e

/-- `sys.exit(arg)` for `arg = None` (exit status 0) or an integer. -/
def sys_exit_code : Option Nat → Nat
  | none => 0
  | some n => n

/-- `defaultdict(list).__getitem__`: never raises `KeyError` — a missing key
yields a fresh empty list.  Used by `.ci/run_tutorials.py`'s `main`, whose
`except KeyError` branch is therefore dead code. -/
def ci_defaultdict_get (fails : List String) : Except Unit (List String) :=
  Except.ok fails

/-- `main()` of .ci/run_tutorials.py: `print(errors['fail'])` on a
`defaultdict` never raises, so the `else` branch always runs and the process
exits with `-1` regardless of how many tutorials failed. -/
def ci_main_exit (fails : List String) : Int :=
  match ci_defaultdict_get fails with
  | Except.ok _ => -1
  | Except.error _ => 0

/-!
## `find_notebooks` (find_notebooks.py and run_notebook.py)

The filesystem is an abstract tree: each directory node has an ordered list
of named subdirectories (the order `os.walk` would list them in) and an
ordered list of file names.  `os.walk(base, topdown=True)` visits a node,
lets the body mutate the `dirs` list, then descends into the surviving
subdirectories in list order.

The body's pruning loop is
`for dir in dirs: if dir.startswith('.'): dirs.remove(dir)` — iterating the
very list it mutates.  Python's list iterator advances a position index on
every step and `list.remove` shifts the later elements left, so the element
directly after a removed one is never examined.  `removeHiddenFuel` models
this exactly: `i` is the iterator position, and a removal advances past the
element that slid into position `i`.
-/

/-- `os.path.join(a, b)` for a single join, POSIX rules. -/
def pathJoin (a b : String) : String :=
  if py_startswith b "/" then b
  else if a = "" then b
  else if py_endswith a "/" then a ++ b
  else a ++ "/" ++ b

/-- The pruning loop of `find_notebooks`, with the Python iterator position
`i` made explicit; the fuel only bounds the number of iterations and
`l.length` iterations always suffice. -/
def removeHiddenFuel : Nat → List String → Nat → List String
  | 0, l, _ => l
  | fuel + 1, l, i =>
    if h : i < l.length then
      let d := l.get ⟨i, h⟩
      if py_startswith d "." then removeHiddenFuel fuel (l.erase d) (i + 1)
      else removeHiddenFuel fuel l (i + 1)
    else l

/-- The list of directory names that survive
`for dir in dirs: if dir.startswith('.'): dirs.remove(dir)`. -/
def removeHidden (l : List String) : List String :=
  removeHiddenFuel l.length l 0

mutual
/-- A directory tree: a node holds its named subdirectories in listing order
and its file names. -/
inductive FSTree where
  | node (subdirs : FSForest) (files : List String)
/-- The subdirectory list of a node, interleaved with `FSTree` so that the
walk below is structurally recursive. -/
inductive FSForest where
  | nil
  | cons (name : String) (tree : FSTree) (rest : FSForest)
end

/-- The names of a directory's subdirectories, in listing order — the
`dirs` list `os.walk` hands to the loop body. -/
def FSForest.names : FSForest → List String
  | FSForest.nil => []
  | FSForest.cons n _ rest => n :: rest.names

/-- The files of one visited directory that `find_notebooks` appends:
`os.path.join(root, fname)` for every `fname` with
`file_path.endswith('.ipynb')`. -/
def filesOut (root : String) (files : List String) : List String :=
  (files.map (pathJoin root)).filter fun p => py_endswith p ".ipynb"

mutual
/-- `os.walk`-driven collection of `find_notebooks`: visit the node's files,
prune the subdirectory list with `removeHidden`, and descend into the
surviving subdirectories in listing order. -/
def walkTree (root : String) : FSTree → List String
  | FSTree.node subdirs files =>
    filesOut root files ++
      walkForest root (removeHidden subdirs.names) subdirs

/-- Descend into the subdirectories whose name survived the pruning loop. -/
def walkForest (root : String) (kept : List String) : FSForest → List String
  | FSForest.nil => []
  | FSForest.cons name t rest =>
    (if name ∈ kept then walkTree (pathJoin root name) t else []) ++
      walkForest root kept rest
end

/-- `find_notebooks(base)` on the abstract tree `t` rooted at `base`. -/
def find_notebooks (base : String) (t : FSTree) : List String :=
  walkTree base t

/-- Split a path on `/` (accumulator holds the current component
reversed). -/
def splitSlash : List Char → List Char → List String
  | [], cur => [String.mk cur.reverse]
  | c :: rest, cur =>
    if c = '/' then String.mk cur.reverse :: splitSlash rest []
    else splitSlash rest (c :: cur)

/-- Does the path have a directory component (any component but the last)
starting with a dot? -/
def hasHiddenDirComponent (p : String) : Bool :=
  ((splitSlash p.data []).dropLast).any fun comp => py_startswith comp "."

/-!
## `run_notebook` (run_notebook.py) and the working directory

`run_notebook` wraps its whole body in `with cd(dirname or '.')`.  The state
is the process working directory; which internal steps raise is captured by
`ExecEnv`.  In the `try/finally`, an exception raised by `os.remove` in the
`finally` block replaces any in-flight exception, per Python semantics.
-/

/-- Process-wide state the harness mutates: the current working
directory. -/
structure St where
  cwd : String
  deriving DecidableEq, Repr

/-- Which steps of one `run_notebook` call fail: the `jupyter nbconvert`
subprocess (raises `CalledProcessError`), `tempfile.mkstemp` (raises
`OSError`), the `ipython` subprocess (raises `CalledProcessError`), and
`os.remove` in the `finally` block (raises `OSError`). -/
structure ExecEnv where
  convertFails : Bool
  mkstempFails : Bool
  ipythonFails : Bool
  removeFails : Bool

/-- Modelled from the spec: `scripting.contexts.cd` (an external dependency,
not in this repository) is the scoped working-directory change — save the
current directory, switch to `target`, run the body, and restore the saved
directory on every exit path, normal or exceptional. -/
def cdScope (target : String) (body : St → Except PyExc Unit × St) (s : St) :
    Except PyExc Unit × St :=
  let saved := s.cwd
  let r := body { cwd := target }
  (r.1, { r.2 with cwd := saved })

/-- The last-`/` position used by `os.path.dirname`. -/
def rfindSlash (cs : List Char) : Option Nat :=
  match cs.reverse.findIdx? (· == '/') with
  | none => none
  | some k => some (cs.length - 1 - k)

/-- `os.path.dirname` (posixpath): everything up to the last `/`, with
trailing slashes stripped unless the head is all slashes. -/
def dirname (p : String) : String :=
  let cs := p.data
  let i := match rfindSlash cs with
           | none => 0
           | some k => k + 1
  let head := cs.take i
  if !head.isEmpty && !(head.all (· == '/')) then
    String.mk ((head.reverse.dropWhile (· == '/')).reverse)
  else String.mk head

/-- `os.path.dirname(notebook) or '.'`. -/
def dirname_or_dot (notebook : String) : String :=
  if dirname notebook = "" then "." else dirname notebook

/-- The body of `run_notebook` inside the `with cd(...)` block: convert the
notebook (a `CalledProcessError` propagates), create the temp script (an
`OSError` propagates), then `try: check_call(['ipython', ...]) finally:
os.remove(...)` — a failing `os.remove` raises out of the `finally`,
replacing any in-flight `CalledProcessError`. -/
def run_notebook_body (env : ExecEnv) (s : St) : Except PyExc Unit × St :=
  if env.convertFails then (Except.error PyExc.calledProcessError, s)
  else if env.mkstempFails then (Except.error PyExc.other, s)
  else
    let callRes : Except PyExc Unit :=
      if env.ipythonFails then Except.error PyExc.calledProcessError
      else Except.ok ()
    if env.removeFails then (Except.error PyExc.other, s)
    else (callRes, s)

/-- `run_notebook(notebook)`: the whole body runs inside
`with cd(os.path.dirname(notebook) or '.')`. -/
def run_notebook_model (env : ExecEnv) (notebook : String) (s : St) :
    Except PyExc Unit × St :=
  cdScope (dirname_or_dot notebook) (run_notebook_body env) s

/-!
## Specification vocabulary

Definitions used only to state properties of the embedded functions.
-/

/-- The result `run_command` records for a notebook on a run that is not
aborted. -/
def entryOf (beh : String → Option PyExc) (excluded : List String)
    (dry_run : Bool) (nb : String) : Option Bool :=
  if nb ∈ excluded then none
  else if dry_run then some true
  else
    match beh nb with
    | some PyExc.calledProcessError => some false
    | _ => some true

/-- Whether `run_notebook` is invoked for a given notebook: it is not
excluded and the run is not a dry run. -/
def execPred (excluded : List String) (dry_run : Bool) (nb : String) : Bool :=
  if nb ∈ excluded then false else !dry_run

/-- A pattern free of the glob metacharacters `*`, `?` and `[`. -/
def noMeta (p : String) : Bool :=
  p.data.all fun c => !(c == '*') && !(c == '?') && !(c == '[')

/-- Number of FAIL entries in a run summary. -/
def numFails (summary : List (String × Option Bool)) : Nat :=
  summary.countP fun p => p.2 == some false

/-- Number of PASS entries in a run summary. -/
def numPasses (summary : List (String × Option Bool)) : Nat :=
  summary.countP fun p => p.2 == some true

/-!
## Helper lemmas
-/

theorem summary_withEntry (o : RunOutcome) (p : String × Option Bool)
    (inv : List String) : (o.withEntry p inv).summary = p :: o.summary := by
  cases o <;> rfl

theorem executed_withEntry (o : RunOutcome) (p : String × Option Bool)
    (inv : List String) :
    (o.withEntry p inv).executed = inv ++ o.executed := by
  cases o <;> rfl

theorem withEntry_finished_inv (o : RunOutcome) (p : String × Option Bool)
    (inv : List String) (s : List (String × Option Bool)) (ex : List String)
    (h : o.withEntry p inv = RunOutcome.finished s ex) :
    ∃ s0 ex0, o = RunOutcome.finished s0 ex0 ∧ s = p :: s0 ∧
      ex = inv ++ ex0 := by
  cases o with
  | finished s0 ex0 =>
    simp only [RunOutcome.withEntry] at h
    injection h with h1 h2
    exact ⟨s0, ex0, rfl, h1.symm, h2.symm⟩
  | aborted s0 ex0 e => simp [RunOutcome.withEntry] at h

theorem withEntry_aborted_inv (o : RunOutcome) (p : String × Option Bool)
    (inv : List String) (s : List (String × Option Bool)) (ex : List String)
    (e : PyExc) (h : o.withEntry p inv = RunOutcome.aborted s ex e) :
    ∃ s0 ex0, o = RunOutcome.aborted s0 ex0 e ∧ s = p :: s0 ∧
      ex = inv ++ ex0 := by
  cases o with
  | finished s0 ex0 => simp [RunOutcome.withEntry] at h
  | aborted s0 ex0 e0 =>
    simp only [RunOutcome.withEntry] at h
    injection h with h1 h2 h3
    exact ⟨s0, ex0, by rw [h3], h1.symm, h2.symm⟩

theorem string_matches_one_of_eq_any (s : String) (patterns : List String) :
    string_matches_one_of s patterns = patterns.any fun p => fnmatch s p := by
  induction patterns with
  | nil => rfl
  | cons p ps ih =>
    by_cases h : fnmatch s p = true <;>
      simp [string_matches_one_of, List.any_cons, h, ih]

theorem match_by_pattern_eq_filter (strings patterns : List String) :
    match_by_pattern strings patterns =
      strings.filter fun s => patterns.any fun p => fnmatch s p := by
  induction strings with
  | nil => rfl
  | cons s ss ih =>
    by_cases h : (patterns.any fun p => fnmatch s p) = true <;>
      simp [match_by_pattern, string_matches_one_of_eq_any, h, ih,
        List.filter_cons]

theorem runCommandLoop_finished (beh : String → Option PyExc)
    (excluded : List String) (dry_run : Bool) (nbs : List String)
    (h : ∀ m ∈ nbs, m ∈ excluded ∨ dry_run = true ∨
        beh m ≠ some PyExc.other) :
    runCommandLoop beh excluded dry_run nbs =
      RunOutcome.finished
        (nbs.map fun m => (m, entryOf beh excluded dry_run m))
        (nbs.filter fun m => execPred excluded dry_run m) := by
  induction nbs with
  | nil => rfl
  | cons nb rest ih =>
    have hnb := h nb (List.mem_cons_self nb rest)
    have ihr := ih fun m hm => h m (List.mem_cons_of_mem nb hm)
    by_cases hmem : nb ∈ excluded
    · simp [runCommandLoop, hmem, ihr, RunOutcome.withEntry, entryOf,
        execPred, List.filter_cons]
    · cases hdry : dry_run with
      | true =>
        subst hdry
        simp [runCommandLoop, hmem, check_notebook, ihr,
          RunOutcome.withEntry, entryOf, execPred, List.filter_cons]
      | false =>
        subst hdry
        have hother : beh nb ≠ some PyExc.other := by
          rcases hnb with h1 | h1 | h1
          · exact absurd h1 hmem
          · exact Bool.noConfusion h1
          · exact h1
        cases hbeh : beh nb with
        | none =>
          simp [runCommandLoop, hmem, check_notebook, hbeh, ihr,
            RunOutcome.withEntry, entryOf, execPred, List.filter_cons]
        | some e =>
          cases e with
          | calledProcessError =>
            simp [runCommandLoop, hmem, check_notebook, hbeh, ihr,
              RunOutcome.withEntry, entryOf, execPred, List.filter_cons]
          | other => exact absurd hbeh hother

theorem check_notebook_dry (beh : String → Option PyExc) (nb : String) :
    check_notebook beh nb true = Except.ok true := rfl

theorem check_notebook_none (beh : String → Option PyExc) (nb : String)
    (h : beh nb = none) : check_notebook beh nb false = Except.ok true := by
  simp [check_notebook, h]

theorem check_notebook_cpe (beh : String → Option PyExc) (nb : String)
    (h : beh nb = some PyExc.calledProcessError) :
    check_notebook beh nb false = Except.ok false := by
  simp [check_notebook, h]

theorem check_notebook_other (beh : String → Option PyExc) (nb : String)
    (h : beh nb = some PyExc.other) :
    check_notebook beh nb false = Except.error PyExc.other := by
  simp [check_notebook, h]

theorem runCommandLoop_aborted_inv (beh : String → Option PyExc)
    (excluded : List String) (nbs : List String)
    (s : List (String × Option Bool)) (ex : List String) (e : PyExc)
    (h : runCommandLoop beh excluded false nbs = RunOutcome.aborted s ex e) :
    e = PyExc.other ∧
      ∀ p ∈ s, p.1 ∈ excluded ∨ beh p.1 ≠ some PyExc.other := by
  induction nbs generalizing s ex with
  | nil => exact absurd h (by simp [runCommandLoop])
  | cons nb rest ih =>
    simp only [runCommandLoop] at h
    by_cases hmem : nb ∈ excluded
    · rw [if_pos hmem] at h
      obtain ⟨s0, ex0, h0, hs, _⟩ := withEntry_aborted_inv _ _ _ _ _ _ h
      obtain ⟨he, hrec⟩ := ih s0 ex0 h0
      refine ⟨he, fun p hp => ?_⟩
      rcases List.mem_cons.mp (hs ▸ hp) with rfl | hp'
      · exact Or.inl hmem
      · exact hrec p hp'
    · rw [if_neg hmem] at h
      cases hbeh : beh nb with
      | none =>
        rw [check_notebook_none beh nb hbeh] at h
        obtain ⟨s0, ex0, h0, hs, _⟩ := withEntry_aborted_inv _ _ _ _ _ _ h
        obtain ⟨he, hrec⟩ := ih s0 ex0 h0
        refine ⟨he, fun p hp => ?_⟩
        rcases List.mem_cons.mp (hs ▸ hp) with rfl | hp'
        · exact Or.inr (by simp [hbeh])
        · exact hrec p hp'
      | some e0 =>
        cases e0 with
        | calledProcessError =>
          rw [check_notebook_cpe beh nb hbeh] at h
          obtain ⟨s0, ex0, h0, hs, _⟩ := withEntry_aborted_inv _ _ _ _ _ _ h
          obtain ⟨he, hrec⟩ := ih s0 ex0 h0
          refine ⟨he, fun p hp => ?_⟩
          rcases List.mem_cons.mp (hs ▸ hp) with rfl | hp'
          · exact Or.inr (by simp [hbeh])
          · exact hrec p hp'
        | other =>
          rw [check_notebook_other beh nb hbeh] at h
          injection h with h1 h2 h3
          subst h1
          exact ⟨h3.symm, by simp⟩

theorem runCommandLoop_finished_inv (beh : String → Option PyExc)
    (excluded : List String) (dry_run : Bool) (nbs : List String)
    (s : List (String × Option Bool)) (ex : List String)
    (h : runCommandLoop beh excluded dry_run nbs = RunOutcome.finished s ex) :
    s.map Prod.fst = nbs ∧
      (∀ m ∈ nbs, m ∉ excluded → dry_run = false →
        beh m = some PyExc.calledProcessError → (m, some false) ∈ s) ∧
      (∀ p ∈ s, p.2 = some false →
        p.1 ∉ excluded ∧ dry_run = false ∧
          beh p.1 = some PyExc.calledProcessError) := by
  induction nbs generalizing s ex with
  | nil =>
    simp only [runCommandLoop] at h
    injection h with h1 h2
    subst h1
    simp
  | cons nb rest ih =>
    simp only [runCommandLoop] at h
    by_cases hmem : nb ∈ excluded
    · rw [if_pos hmem] at h
      obtain ⟨s0, ex0, h0, hs, _⟩ := withEntry_finished_inv _ _ _ _ _ h
      obtain ⟨hmap, hocc, hcls⟩ := ih s0 ex0 h0
      subst hs
      refine ⟨by simp [hmap], fun m hm hmex hdf hcpe => ?_, fun p hp hpf => ?_⟩
      · rcases List.mem_cons.mp hm with rfl | hm'
        · exact absurd hmem hmex
        · exact List.mem_cons_of_mem _ (hocc m hm' hmex hdf hcpe)
      · rcases List.mem_cons.mp hp with rfl | hp'
        · exact absurd hpf (by simp)
        · exact hcls p hp' hpf
    · rw [if_neg hmem] at h
      cases hdry : dry_run with
      | true =>
        subst hdry
        rw [check_notebook_dry beh nb] at h
        obtain ⟨s0, ex0, h0, hs, _⟩ := withEntry_finished_inv _ _ _ _ _ h
        obtain ⟨hmap, hocc, hcls⟩ := ih s0 ex0 h0
        subst hs
        refine ⟨by simp [hmap], fun m hm hmex hdf hcpe => Bool.noConfusion hdf,
          fun p hp hpf => ?_⟩
        rcases List.mem_cons.mp hp with rfl | hp'
        · exact absurd hpf (by simp)
        · exact hcls p hp' hpf
      | false =>
        subst hdry
        cases hbeh : beh nb with
        | none =>
          rw [check_notebook_none beh nb hbeh] at h
          obtain ⟨s0, ex0, h0, hs, _⟩ := withEntry_finished_inv _ _ _ _ _ h
          obtain ⟨hmap, hocc, hcls⟩ := ih s0 ex0 h0
          subst hs
          refine ⟨by simp [hmap], fun m hm hmex hdf hcpe => ?_,
            fun p hp hpf => ?_⟩
          · rcases List.mem_cons.mp hm with rfl | hm'
            · exact absurd hcpe (by simp [hbeh])
            · exact List.mem_cons_of_mem _ (hocc m hm' hmex hdf hcpe)
          · rcases List.mem_cons.mp hp with rfl | hp'
            · exact absurd hpf (by simp)
            · exact hcls p hp' hpf
        | some e0 =>
          cases e0 with
          | calledProcessError =>
            rw [check_notebook_cpe beh nb hbeh] at h
            obtain ⟨s0, ex0, h0, hs, _⟩ := withEntry_finished_inv _ _ _ _ _ h
            obtain ⟨hmap, hocc, hcls⟩ := ih s0 ex0 h0
            subst hs
            refine ⟨by simp [hmap], fun m hm hmex hdf hcpe => ?_,
              fun p hp hpf => ?_⟩
            · rcases List.mem_cons.mp hm with rfl | hm'
              · exact List.mem_cons_self _ _
              · exact List.mem_cons_of_mem _ (hocc m hm' hmex hdf hcpe)
            · rcases List.mem_cons.mp hp with rfl | hp'
              · exact ⟨hmem, rfl, hbeh⟩
              · exact hcls p hp' hpf
          | other =>
            rw [check_notebook_other beh nb hbeh] at h
            exact absurd h (by simp)

theorem runCommandLoop_aborts (beh : String → Option PyExc)
    (excluded : List String) (nb : String) (post : List String)
    (hnb : nb ∉ excluded) (hbeh : beh nb = some PyExc.other) :
    ∀ pre : List String,
      (∀ m ∈ pre, m ∈ excluded ∨ beh m ≠ some PyExc.other) →
      runCommandLoop beh excluded false (pre ++ nb :: post) =
        RunOutcome.aborted
          (pre.map fun m => (m, entryOf beh excluded false m))
          ((pre.filter fun m => execPred excluded false m) ++ [nb])
          PyExc.other := by
  intro pre
  induction pre with
  | nil =>
    intro _
    simp only [List.nil_append, runCommandLoop, if_neg hnb]
    rw [check_notebook_other beh nb hbeh]
    simp
  | cons m pre ih =>
    intro h
    have hm := h m (List.mem_cons_self m pre)
    have ihr := ih fun x hx => h x (List.mem_cons_of_mem m hx)
    by_cases hmem : m ∈ excluded
    · simp only [List.cons_append, runCommandLoop, List.append_eq]
      rw [if_pos hmem, ihr]
      simp [RunOutcome.withEntry, entryOf, hmem, execPred, List.filter_cons]
    · have hother : beh m ≠ some PyExc.other := hm.resolve_left hmem
      cases hbm : beh m with
      | none =>
        simp only [List.cons_append, runCommandLoop, List.append_eq]
        rw [if_neg hmem, check_notebook_none beh m hbm, ihr]
        simp [RunOutcome.withEntry, entryOf, hmem, hbm, execPred,
          List.filter_cons]
      | some e0 =>
        cases e0 with
        | calledProcessError =>
          simp only [List.cons_append, runCommandLoop, List.append_eq]
          rw [if_neg hmem, check_notebook_cpe beh m hbm, ihr]
          simp [RunOutcome.withEntry, entryOf, hmem, hbm, execPred,
            List.filter_cons]
        | other => exact absurd hbm hother

theorem runCommandLoop_excluded_skip (beh : String → Option PyExc)
    (excluded : List String) (dry_run : Bool) (nb : String)
    (hmem : nb ∈ excluded) (nbs : List String) :
    (∀ p ∈ (runCommandLoop beh excluded dry_run nbs).summary,
        p.1 = nb → p.2 = none) ∧
      nb ∉ (runCommandLoop beh excluded dry_run nbs).executed := by
  induction nbs with
  | nil => simp [runCommandLoop, RunOutcome.summary, RunOutcome.executed]
  | cons m rest ih =>
    by_cases hm : m ∈ excluded
    · simp only [runCommandLoop, if_pos hm, summary_withEntry,
        executed_withEntry]
      refine ⟨fun p hp hpnb => ?_, by simpa using ih.2⟩
      rcases List.mem_cons.mp hp with rfl | hp'
      · rfl
      · exact ih.1 p hp' hpnb
    · have hne : m ≠ nb := fun hcontra => hm (hcontra ▸ hmem)
      simp only [runCommandLoop, if_neg hm]
      cases hcn : check_notebook beh m dry_run with
      | ok b =>
        simp only [summary_withEntry, executed_withEntry]
        refine ⟨fun p hp hpnb => ?_, ?_⟩
        · rcases List.mem_cons.mp hp with rfl | hp'
          · exact absurd hpnb hne
          · exact ih.1 p hp' hpnb
        · intro hcontra
          rcases List.mem_append.mp hcontra with hl | hr
          · cases dry_run with
            | true => simp at hl
            | false => exact hne.symm (by simpa using hl)
          · exact ih.2 hr
      | error e =>
        simp only [RunOutcome.summary, RunOutcome.executed]
        refine ⟨by simp, ?_⟩
        cases dry_run with
        | true => simp
        | false => simpa using fun hcontra => hne.symm hcontra

/-!
## Claims
-/

/-- C1: the claim says the process exit code equals the number of FAILed
notebooks.  It does not: on a run with one failing notebook `run_command`
returns failure count 1, but `main()` discards `args.func(args)` and
returns `None`, so `sys.exit(main())` exits with status 0; and
`.ci/run_tutorials.py` exits `-1` even with zero failures, because
`errors['fail']` on a `defaultdict` never raises `KeyError`. -/
theorem C1_exit_code_bug :
    run_command (fun _ => some PyExc.calledProcessError)
        ["a.ipynb"] [] false = Except.ok 1 ∧
    main_model (fun _ => some PyExc.calledProcessError)
        ["a.ipynb"] [] false = Except.ok none ∧
    sys_exit_code none = 0 ∧
    ci_main_exit [] = -1 :=
  ⟨rfl, rfl, rfl, rfl⟩

/-- C2 counterexample: on a dry run the (non-excluded) notebook is recorded
with result `True` (PASS), not `None` (SKIP), as the claim states. -/
theorem C2_counterexample :
    run_command_outcome (fun _ => none) ["nb.ipynb"] [] true =
      RunOutcome.finished [("nb.ipynb", some true)] [] ∧
    some true ≠ (none : Option Bool) :=
  ⟨rfl, by decide⟩

/-- C2 amended: for every run with `dry_run=True`, every requested
non-excluded reference is recorded with result PASS (`True`), excluded
references are recorded SKIP (`None`), and the Executor (`run_notebook`) is
never invoked — zero conversion or interpreter subprocesses are spawned. -/
theorem C2_dry_run_pass_no_exec (beh : String → Option PyExc)
    (notebooks exclude : List String) :
    run_command_outcome beh notebooks exclude true =
      RunOutcome.finished
        (notebooks.map fun m =>
          (m, if m ∈ match_by_pattern notebooks exclude then none
              else some true))
        [] := by
  have h := runCommandLoop_finished beh (match_by_pattern notebooks exclude)
    true notebooks (fun m _ => Or.inr (Or.inl rfl))
  rw [run_command_outcome, h]
  simp [entryOf, execPred]

/-- C3: the claim says `find_notebooks` never returns a path with a hidden
directory component, with hidden directories pruned from the traversal.
The pruning loop `for dir in dirs: dirs.remove(dir)` mutates the list it
iterates, skipping the element after each removal: with two consecutive
hidden subdirectories `.a`, `.b`, the directory `.b` survives and its
notebook is returned. -/
theorem C3_pruning_bug :
    find_notebooks "base"
        (FSTree.node
          (FSForest.cons ".a" (FSTree.node FSForest.nil [])
            (FSForest.cons ".b" (FSTree.node FSForest.nil ["x.ipynb"])
              FSForest.nil)) []) =
      ["base/.b/x.ipynb"] ∧
    hasHiddenDirComponent "base/.b/x.ipynb" = true :=
  ⟨rfl, by decide⟩

/-- C4: after `run_notebook(path)` returns or raises, the working directory
equals the one in effect before the call, on every exit path — normal
completion, converter failure, mkstemp failure, interpreter failure and
temp-file cleanup failure are all covered by the `ExecEnv` parameter. -/
theorem C4_cwd_restored (env : ExecEnv) (notebook : String) (s : St) :
    (run_notebook_model env notebook s).2.cwd = s.cwd := rfl

/-- C5: when the Coordinator executes a notebook, a subprocess exiting
non-zero (`CalledProcessError`) is caught, recorded as FAIL, and the run
continues — if no notebook raises any other exception the loop finishes
with one summary entry per requested notebook, and the FAIL entries are
exactly the `CalledProcessError` ones; a non-`CalledProcessError`
exception is not caught: when the run reaches a non-excluded notebook
whose execution raises such an exception, the outcome really is aborted,
the propagated exception is that one, only the items before it are
recorded, and the aborting notebook has no summary entry at all (in
particular it is not recorded as a per-item FAIL); conversely every
aborted outcome carries a non-`CalledProcessError` exception. -/
theorem C5_error_handling (beh : String → Option PyExc)
    (notebooks exclude : List String) :
    ((∀ m ∈ notebooks, m ∈ match_by_pattern notebooks exclude ∨
        beh m ≠ some PyExc.other) →
      ∃ s ex, run_command_outcome beh notebooks exclude false =
        RunOutcome.finished s ex) ∧
    (∀ s ex, run_command_outcome beh notebooks exclude false =
        RunOutcome.finished s ex →
      s.map Prod.fst = notebooks ∧
      (∀ m ∈ notebooks, m ∉ match_by_pattern notebooks exclude →
        beh m = some PyExc.calledProcessError → (m, some false) ∈ s) ∧
      (∀ p ∈ s, p.2 = some false →
        beh p.1 = some PyExc.calledProcessError)) ∧
    (∀ s ex e, run_command_outcome beh notebooks exclude false =
        RunOutcome.aborted s ex e →
      e = PyExc.other ∧
      ∀ p ∈ s, p.1 ∈ match_by_pattern notebooks exclude ∨
        beh p.1 ≠ some PyExc.other) ∧
    (∀ pre nb post, notebooks = pre ++ nb :: post →
      nb ∉ match_by_pattern notebooks exclude →
      beh nb = some PyExc.other →
      (∀ m ∈ pre, m ∈ match_by_pattern notebooks exclude ∨
        beh m ≠ some PyExc.other) →
      run_command_outcome beh notebooks exclude false =
        RunOutcome.aborted
          (pre.map fun m =>
            (m, entryOf beh (match_by_pattern notebooks exclude) false m))
          ((pre.filter fun m =>
            execPred (match_by_pattern notebooks exclude) false m) ++ [nb])
          PyExc.other ∧
      ∀ p ∈ (run_command_outcome beh notebooks exclude false).summary,
        p.1 ≠ nb) := by
  refine ⟨?_, ?_, ?_, ?_⟩
  · intro h
    exact ⟨_, _, runCommandLoop_finished beh _ false notebooks
      (fun m hm => (h m hm).elim Or.inl fun h2 => Or.inr (Or.inr h2))⟩
  · intro s ex hfin
    obtain ⟨h1, h2, h3⟩ :=
      runCommandLoop_finished_inv beh _ false notebooks s ex hfin
    exact ⟨h1, fun m hm hne hcpe => h2 m hm hne rfl hcpe,
      fun p hp hpf => (h3 p hp hpf).2.2⟩
  · intro s ex e hab
    exact runCommandLoop_aborted_inv beh _ notebooks s ex e hab
  · intro pre nb post hsplit hnbex hbeh hpre
    subst hsplit
    have habort := runCommandLoop_aborts beh
      (match_by_pattern (pre ++ nb :: post) exclude) nb post hnbex hbeh
      pre hpre
    refine ⟨habort, ?_⟩
    have hsum :
        (run_command_outcome beh (pre ++ nb :: post) exclude
            false).summary =
          pre.map fun m =>
            (m, entryOf beh (match_by_pattern (pre ++ nb :: post) exclude)
              false m) := by
      rw [run_command_outcome, habort]
      rfl
    intro p hp hpnb
    rw [hsum] at hp
    obtain ⟨m, hmpre, hmp⟩ := List.mem_map.mp hp
    have hmnb : nb ∈ pre := by
      have : p.1 = m := by rw [← hmp]
      rw [hpnb] at this
      rw [this]
      exact hmpre
    rcases hpre nb hmnb with h1 | h1
    · exact hnbex h1
    · exact h1 hbeh

/-- C5 witness: a run where one notebook fails by `CalledProcessError`
finishes and continues past the failure, while a run containing a
notebook that raises a different exception really aborts there, with the
items before it recorded and the aborting notebook absent from the
summary. -/
theorem C5_witness :
    (∃ s ex, run_command_outcome
        (fun m => if m = "bad.ipynb" then some PyExc.calledProcessError
                  else none)
        ["good.ipynb", "bad.ipynb"] [] false =
      RunOutcome.finished s ex) ∧
    run_command_outcome
        (fun m => if m = "boom.ipynb" then some PyExc.other else none)
        ["ok.ipynb", "boom.ipynb", "after.ipynb"] [] false =
      RunOutcome.aborted [("ok.ipynb", some true)]
        ["ok.ipynb", "boom.ipynb"] PyExc.other := by
  constructor
  · exact (C5_error_handling _ ["good.ipynb", "bad.ipynb"] []).1 (by decide)
  · have h := ((C5_error_handling
        (fun m => if m = "boom.ipynb" then some PyExc.other else none)
        ["ok.ipynb", "boom.ipynb", "after.ipynb"] []).2.2.2
        ["ok.ipynb"] "boom.ipynb" ["after.ipynb"] rfl (by decide)
        (by decide) (by decide)).1
    exact h.trans (by decide)

/-- C6: a requested reference that matches an exclude pattern is recorded
SKIP (`None`) — even when executing it would have failed, since the
behaviour oracle is arbitrary — and `run_notebook` is never invoked for
it. -/
theorem C6_exclusion_precedence (beh : String → Option PyExc)
    (notebooks exclude : List String) (dry_run : Bool) (nb : String)
    (h : nb ∈ match_by_pattern notebooks exclude) :
    (∀ p ∈ (run_command_outcome beh notebooks exclude dry_run).summary,
        p.1 = nb → p.2 = none) ∧
      nb ∉ (run_command_outcome beh notebooks exclude dry_run).executed :=
  runCommandLoop_excluded_skip beh _ dry_run nb h notebooks

/-- C6 witness: an excluded notebook whose execution would raise is still
recorded SKIP and never executed. -/
theorem C6_witness :
    (∀ p ∈ (run_command_outcome (fun _ => some PyExc.other) ["a.ipynb"]
        ["*.ipynb"] false).summary, p.1 = "a.ipynb" → p.2 = none) ∧
      "a.ipynb" ∉ (run_command_outcome (fun _ => some PyExc.other)
        ["a.ipynb"] ["*.ipynb"] false).executed :=
  C6_exclusion_precedence (fun _ => some PyExc.other) ["a.ipynb"]
    ["*.ipynb"] false "a.ipynb" (by decide)

/-- C7: `match_by_pattern` returns exactly the candidates matching at least
one pattern (logical OR across the patterns), in candidate order (the
result is a sublist of the input), and an empty pattern set yields the
empty sequence. -/
theorem C7_match_by_pattern_spec (strings patterns : List String) :
    match_by_pattern strings patterns =
        strings.filter (fun s => patterns.any fun p => fnmatch s p) ∧
      (match_by_pattern strings patterns).Sublist strings ∧
      match_by_pattern strings [] = [] := by
  refine ⟨match_by_pattern_eq_filter strings patterns, ?_, ?_⟩
  · rw [match_by_pattern_eq_filter]
    exact List.filter_sublist _
  · rw [match_by_pattern_eq_filter]
    simp

/-- C8 counterexample: the exact path `"[ab]"` used as its own pattern does
not match itself, and the exact path `"*"` used as its own pattern matches
the unrelated path `"zzz"`. -/
theorem C8_counterexample :
    match_by_pattern ["[ab]"] ["[ab]"] = [] ∧
    match_by_pattern ["zzz"] ["*"] = ["zzz"] :=
  ⟨rfl, rfl⟩

theorem fnmatchFuel_literal (fuel : Nat) :
    ∀ p s : List Char,
      (p.all fun c => !(c == '*') && !(c == '?') && !(c == '[')) = true →
      p.length + s.length < fuel →
      (fnmatchFuel fuel p s = true ↔ s = p) := by
  induction fuel with
  | zero => intro p s _ hlt; exact absurd hlt (by omega)
  | succ n ih =>
    intro p s hmeta hlt
    cases p with
    | nil =>
      cases s <;> simp [fnmatchFuel]
    | cons c ps =>
      rw [List.all_cons, Bool.and_eq_true] at hmeta
      obtain ⟨hc, hps⟩ := hmeta
      simp only [Bool.and_eq_true, Bool.not_eq_true', beq_eq_false_iff_ne,
        ne_eq] at hc
      obtain ⟨⟨hstar, hq⟩, hbr⟩ := hc
      simp only [fnmatchFuel, if_neg hstar, if_neg hq, if_neg hbr]
      cases s with
      | nil => simp
      | cons d s2 =>
        have hrec := ih ps s2 hps (by simp at hlt ⊢; omega)
        simp [hrec, List.cons.injEq, Bool.and_eq_true, beq_iff_eq,
          and_comm]

/-- C8 amended: exact-match is a valid glob for metacharacter-free paths —
for a pattern containing none of `*`, `?`, `[`, `fnmatch` accepts exactly
the strings equal to the pattern (so the pattern matches its own path and
no unrelated path).  For paths containing metacharacters the original
claim fails, as the counterexample shows. -/
theorem C8_exact_match (pattern s : String) (h : noMeta pattern = true) :
    fnmatch s pattern = true ↔ s = pattern := by
  rw [fnmatch, fnmatchFuel_literal _ pattern.data s.data h (by omega)]
  exact ⟨fun h2 => String.ext h2, fun h2 => congrArg String.data h2⟩

/-- C8 witness: a concrete metacharacter-free path matches itself. -/
theorem C8_witness :
    noMeta "a/b.ipynb" = true ∧ fnmatch "a/b.ipynb" "a/b.ipynb" = true :=
  ⟨by decide, (C8_exact_match "a/b.ipynb" "a/b.ipynb" (by decide)).mpr rfl⟩

theorem print_success_or_failure_ret
    (summary : List (String × Option Bool)) :
    (print_success_or_failure summary).2 =
      (summary.filter fun p => p.2 == some false).length := by
  simp only [print_success_or_failure]
  split <;> simp

/-- C9: `print_success_or_failure` returns the number N of FAIL entries and
prints `"FAILED (failures=N)"` when N>0 or `"OK Ran M tests"` (M the number
of PASS entries) when N=0; and on a run with no exclusions where the only
failures are interpreter subprocesses exiting non-zero, the returned count
equals the number of failing notebooks. -/
theorem C9_reporter :
    (∀ summary : List (String × Option Bool),
      (print_success_or_failure summary).2 = numFails summary ∧
      (0 < numFails summary →
        (print_success_or_failure summary).1 =
          "FAILED (failures=" ++ toString (numFails summary) ++ ")") ∧
      (numFails summary = 0 →
        (print_success_or_failure summary).1 =
          "OK Ran " ++ toString (numPasses summary) ++ " tests")) ∧
    (∀ beh : String → Option PyExc, ∀ notebooks : List String,
      (∀ m ∈ notebooks, beh m ≠ some PyExc.other) →
      ∃ s ex, run_command_outcome beh notebooks [] false =
          RunOutcome.finished s ex ∧
        (print_success_or_failure s).2 =
          (notebooks.filter fun m =>
            beh m == some PyExc.calledProcessError).length) := by
  constructor
  · intro summary
    refine ⟨?_, ?_, ?_⟩
    · rw [print_success_or_failure_ret, numFails,
        List.countP_eq_length_filter]
    · intro hpos
      rw [numFails, List.countP_eq_length_filter] at hpos
      have hne :
          (((summary.filter fun p => p.2 == some false).map
            Prod.fst).isEmpty) = false := by
        rw [List.isEmpty_eq_false]
        intro hcontra
        rw [← List.length_eq_zero] at hcontra
        rw [List.length_map] at hcontra
        omega
      simp only [print_success_or_failure, hne, Bool.not_false, if_pos rfl,
        if_true, numFails, List.countP_eq_length_filter, List.length_map]
    · intro hzero
      rw [numFails, List.countP_eq_length_filter] at hzero
      have hnil : (summary.filter fun p => p.2 == some false) = [] :=
        List.length_eq_zero.mp hzero
      simp only [print_success_or_failure, hnil, List.map_nil,
        List.isEmpty_nil, Bool.not_true, Bool.false_eq_true, if_false,
        numPasses, List.countP_eq_length_filter, List.length_map]
  · intro beh notebooks h
    have hexcl : match_by_pattern notebooks [] = [] := by
      rw [match_by_pattern_eq_filter]
      simp
    have hfin := runCommandLoop_finished beh (match_by_pattern notebooks [])
      false notebooks (fun m hm => Or.inr (Or.inr (h m hm)))
    refine ⟨_, _, hfin, ?_⟩
    rw [hexcl, print_success_or_failure_ret, List.filter_map,
      List.length_map]
    congr 1
    apply List.filter_congr
    intro m hm
    simp only [Function.comp_apply]
    cases hbeh : beh m with
    | none => simp [entryOf, hbeh]
    | some e0 =>
      cases e0 with
      | calledProcessError => simp [entryOf, hbeh]
      | other => exact absurd hbeh (h m hm)

/-- C9 witness: a concrete two-notebook run with one interpreter failure,
plus the FAILED line for a concrete summary. -/
theorem C9_witness :
    (∃ s ex, run_command_outcome
        (fun m => if m = "b.ipynb" then some PyExc.calledProcessError
                  else none) ["a.ipynb", "b.ipynb"] [] false =
          RunOutcome.finished s ex ∧
        (print_success_or_failure s).2 =
          (["a.ipynb", "b.ipynb"].filter fun m =>
            (if m = "b.ipynb" then some PyExc.calledProcessError
             else none) == some PyExc.calledProcessError).length) ∧
    (print_success_or_failure [("x.ipynb", some false)]).1 =
      "FAILED (failures=" ++
        toString (numFails [("x.ipynb", some false)]) ++ ")" :=
  ⟨C9_reporter.2 _ ["a.ipynb", "b.ipynb"] (by decide),
    (C9_reporter.1 [("x.ipynb", some false)]).2.1 (by decide)⟩

/-- C10: `find_notebooks` excludes only hidden directories, not hidden
files — any file of the visited directory whose joined path ends in
`.ipynb` is returned, even when its own name starts with a dot. -/
theorem C10_hidden_files_included (base fname : String)
    (subdirs : FSForest) (files : List String)
    (hmem : fname ∈ files) (_hdot : py_startswith fname "." = true)
    (hext : py_endswith (pathJoin base fname) ".ipynb" = true) :
    pathJoin base fname ∈ find_notebooks base (FSTree.node subdirs files) := by
  rw [find_notebooks, walkTree]
  apply List.mem_append_left
  rw [filesOut]
  exact List.mem_filter.mpr ⟨List.mem_map_of_mem _ hmem, hext⟩

/-- C10 witness: a dot-file notebook in a non-hidden directory is
returned. -/
theorem C10_witness :
    pathJoin "docs" ".hidden.ipynb" ∈
      find_notebooks "docs" (FSTree.node FSForest.nil [".hidden.ipynb"]) :=
  C10_hidden_files_included "docs" ".hidden.ipynb" FSForest.nil
    [".hidden.ipynb"] (by decide) (by decide) (by decide)

